import Mathlib

/-!
Shallow embedding of the streamio repository (renderer camera state,
input dispatcher, RGBA→YUV conversion, standalone WebRTC signaling and
frame push, GStreamer frame push, PORT parsing), with theorems settling
the specification claims.

Rust `f32`/`f64` values are modelled as rationals (`ℚ`); machine integer
arithmetic is modelled on `Int`/`Nat` with explicit wrapping or
saturation where the source can overflow.
-/

namespace Streamio

/-! ## Renderer camera (src/renderer/mod.rs) -/

/-- Model of `glam::Vec3` (three `f32` components, modelled as `ℚ`). -/
structure Vec3Q where
  x : ℚ
  y : ℚ
  z : ℚ
  deriving DecidableEq, Repr

/-- `Vec3::ZERO`. -/
def Vec3Q.zero : Vec3Q := ⟨0, 0, 0⟩

/-- `Camera` from src/renderer/mod.rs: azimuth, elevation, distance,
focal point and field of view. -/
structure Camera where
  azimuth : ℚ
  elevation : ℚ
  distance : ℚ
  focal_point : Vec3Q
  fov : ℚ
  deriving DecidableEq, Repr

/-- Rust `f32::clamp(self, lo, hi)` for finite values with `lo ≤ hi`. -/
def clampQ (x lo hi : ℚ) : ℚ := max lo (min hi x)

/-- `impl Default for Camera`: `{azimuth: 45, elevation: 30, distance: 5,
focal_point: ZERO, fov: 45}`. -/
def Camera.defaultCam : Camera :=
  { azimuth := 45, elevation := 30, distance := 5,
    focal_point := Vec3Q.zero, fov := 45 }

/-- `Camera::rotate`: `azimuth += dx * 0.5;
elevation = (elevation + dy * 0.5).clamp(-89.0, 89.0)`. -/
def Camera.rotate (c : Camera) (dx dy : ℚ) : Camera :=
  { c with
    azimuth := c.azimuth + dx * (1/2),
    elevation := clampQ (c.elevation + dy * (1/2)) (-89) 89 }

/-- `Camera::zoom`: `distance = (distance * (1.0 - delta * 0.1)).clamp(1.0, 20.0)`. -/
def Camera.zoom (c : Camera) (delta : ℚ) : Camera :=
  { c with distance := clampQ (c.distance * (1 - delta * (1/10))) 1 20 }

/-- `Camera::pan`: `scale = distance * 0.002; focal_point.x -= dx * scale;
focal_point.y += dy * scale`. -/
def Camera.pan (c : Camera) (dx dy : ℚ) : Camera :=
  let scale := c.distance * (2/1000)
  { c with focal_point :=
      { c.focal_point with
        x := c.focal_point.x - dx * scale,
        y := c.focal_point.y + dy * scale } }

/-- `Camera::reset`: `*self = Self::default()`. -/
def Camera.reset (_c : Camera) : Camera := Camera.defaultCam

/-- `InputEvent` of the renderer variant (src/renderer/mod.rs). -/
inductive CamEvent where
  | rotate (dx dy : ℚ)
  | zoom (delta : ℚ)
  | pan (dx dy : ℚ)
  | reset
  | setCamera (azimuth elevation distance : ℚ) (focal_point : Vec3Q)
  | loadHorizon
  deriving DecidableEq, Repr

/-- `HorizonRenderer::handle_input`: dispatch one event to the camera. -/
def handleInput (c : Camera) : CamEvent → Camera
  | .rotate dx dy => c.rotate dx dy
  | .zoom delta => c.zoom delta
  | .pan dx dy => c.pan dx dy
  | .reset => c.reset
  | .setCamera az el dist fp =>
      { c with azimuth := az, elevation := el, distance := dist, focal_point := fp }
  | .loadHorizon => c

/-- Events covered by the C2 invariant claim. -/
def CamEvent.isRotateOrZoom : CamEvent → Prop
  | .rotate _ _ => True
  | .zoom _ => True
  | _ => False

instance : DecidablePred CamEvent.isRotateOrZoom := by
  intro e
  cases e <;> simp [CamEvent.isRotateOrZoom] <;> infer_instance

/-- The camera invariant of the spec: elevation in [-89, 89], distance in [1, 20]. -/
def cameraInv (c : Camera) : Prop :=
  -89 ≤ c.elevation ∧ c.elevation ≤ 89 ∧ 1 ≤ c.distance ∧ c.distance ≤ 20

instance : DecidablePred cameraInv := by
  intro c
  unfold cameraInv
  infer_instance

theorem clampQ_le (x lo hi : ℚ) (h : lo ≤ hi) : clampQ x lo hi ≤ hi := by
  unfold clampQ
  exact max_le h (min_le_left _ _)

theorem le_clampQ (x lo hi : ℚ) : lo ≤ clampQ x lo hi := le_max_left _ _

theorem cameraInv_step (c : Camera) (e : CamEvent) (hc : cameraInv c)
    (he : e.isRotateOrZoom) : cameraInv (handleInput c e) := by
  obtain ⟨h1, h2, h3, h4⟩ := hc
  cases e with
  | rotate dx dy =>
      refine ⟨le_clampQ _ _ _, clampQ_le _ _ _ (by norm_num), h3, h4⟩
  | zoom delta =>
      refine ⟨h1, h2, le_clampQ _ _ _, clampQ_le _ _ _ (by norm_num)⟩
  | pan dx dy => exact absurd he (by simp [CamEvent.isRotateOrZoom])
  | reset => exact absurd he (by simp [CamEvent.isRotateOrZoom])
  | setCamera az el dist fp => exact absurd he (by simp [CamEvent.isRotateOrZoom])
  | loadHorizon => exact absurd he (by simp [CamEvent.isRotateOrZoom])

theorem cameraInv_foldl (c : Camera) (evs : List CamEvent) (hc : cameraInv c)
    (hevs : ∀ e ∈ evs, e.isRotateOrZoom) : cameraInv (evs.foldl handleInput c) := by
  induction evs generalizing c with
  | nil => exact hc
  | cons e rest ih =>
      exact ih _ (cameraInv_step c e hc (hevs e (List.mem_cons_self e rest)))
        (fun e' he' => hevs e' (List.mem_cons_of_mem e he'))

/-- C2: starting from the default camera state, after any finite sequence of
rotate/zoom events the elevation lies within [-89, 89] degrees and the
distance within [1, 20]. (Every prefix of a sequence is itself a sequence,
so this covers the state after every event.) -/
theorem camera_invariant_rotate_zoom (evs : List CamEvent)
    (hevs : ∀ e ∈ evs, e.isRotateOrZoom) :
    cameraInv (evs.foldl handleInput Camera.defaultCam) :=
  cameraInv_foldl Camera.defaultCam evs (by decide) hevs

theorem camera_invariant_rotate_zoom_witness :
    (∀ e ∈ [CamEvent.rotate 0 500, CamEvent.zoom (-3000)], e.isRotateOrZoom) ∧
    cameraInv ([CamEvent.rotate 0 500, CamEvent.zoom (-3000)].foldl
      handleInput Camera.defaultCam) :=
  ⟨by decide, camera_invariant_rotate_zoom _ (by decide)⟩

/-- C8: applying `reset` to any camera state yields exactly the default state
{azimuth 45, elevation 30, distance 5, focal point (0,0,0), fov 45}; in
particular reset is idempotent. -/
theorem reset_yields_default (c : Camera) :
    handleInput c .reset = Camera.defaultCam ∧
    handleInput (handleInput c .reset) .reset = handleInput c .reset := ⟨rfl, rfl⟩

/-- C10: each camera operation touches only its own fields: rotate leaves
distance, focal point and fov unchanged; zoom leaves azimuth, elevation,
focal point and fov unchanged; pan leaves azimuth, elevation, distance,
focal_point.z and fov unchanged; set_camera leaves fov unchanged. -/
theorem camera_ops_frame_conditions (c : Camera) (dx dy delta az el dist : ℚ)
    (fp : Vec3Q) :
    ((c.rotate dx dy).distance = c.distance ∧
     (c.rotate dx dy).focal_point = c.focal_point ∧
     (c.rotate dx dy).fov = c.fov) ∧
    ((c.zoom delta).azimuth = c.azimuth ∧
     (c.zoom delta).elevation = c.elevation ∧
     (c.zoom delta).focal_point = c.focal_point ∧
     (c.zoom delta).fov = c.fov) ∧
    ((c.pan dx dy).azimuth = c.azimuth ∧
     (c.pan dx dy).elevation = c.elevation ∧
     (c.pan dx dy).distance = c.distance ∧
     (c.pan dx dy).focal_point.z = c.focal_point.z ∧
     (c.pan dx dy).fov = c.fov) ∧
    (handleInput c (.setCamera az el dist fp)).fov = c.fov :=
  ⟨⟨rfl, rfl, rfl⟩, ⟨rfl, rfl, rfl, rfl⟩, ⟨rfl, rfl, rfl, rfl, rfl⟩, rfl⟩

/-! ## Input dispatcher (src/input.rs) -/

/-- `Modifiers` from src/input.rs. -/
structure Modifiers where
  shift : Bool
  ctrl : Bool
  alt : Bool
  meta : Bool
  deriving DecidableEq, Repr

/-- `InputEvent` of the screen-capture variant (src/input.rs). Mouse
coordinates are `i32`, scroll deltas are `f64` (modelled as `ℚ`). -/
inductive ScreenEvent where
  | mouseDown (button : Nat) (x y : Int)
  | mouseUp (button : Nat) (x y : Int)
  | mouseMove (x y : Int)
  | scroll (dx dy : ℚ)
  | keyDown (key code : String) (modifiers : Modifiers)
  | keyUp (key code : String) (modifiers : Modifiers)
  deriving DecidableEq, Repr

/-- `enigo::Button` values the dispatcher uses. -/
inductive MouseButton where
  | left
  | middle
  | right
  deriving DecidableEq, Repr

/-- `enigo::Direction`. -/
inductive KeyDir where
  | press
  | release
  | click
  deriving DecidableEq, Repr

/-- The `enigo::Key` values reachable from `map_key` plus the modifier keys. -/
inductive EKey where
  | meta
  | control
  | alt
  | shift
  | ret
  | escape
  | backspace
  | tab
  | space
  | upArrow
  | downArrow
  | leftArrow
  | rightArrow
  | del
  | home
  | keyEnd
  | pageUp
  | pageDown
  | f1 | f2 | f3 | f4 | f5 | f6 | f7 | f8 | f9 | f10 | f11 | f12
  | capsLock
  | unicode (c : Char)
  deriving DecidableEq, Repr

/-- One call into the enigo OS input handle, in emission order. -/
inductive EnigoCall where
  | moveMouse (x y : Int)
  | button (b : MouseButton) (d : KeyDir)
  | scroll (amount : Int)
  | text (s : String)
  | key (k : EKey) (d : KeyDir)
  deriving DecidableEq, Repr

/-- Button-code mapping of the MouseDown/MouseUp arms:
`{0: left, 1: middle, 2: right}`, anything else left. -/
def btnOf (b : Nat) : MouseButton :=
  match b with
  | 0 => .left
  | 1 => .middle
  | 2 => .right
  | _ => .left

/-- Rust truncation toward zero of a real value (the rounding `as i32` uses). -/
def truncQ (x : ℚ) : Int := if 0 ≤ x then ⌊x⌋ else ⌈x⌉

/-- Rust `f64 as i32`: truncate toward zero, saturating at the `i32` range
(finite inputs). -/
def f64AsI32 (x : ℚ) : Int := max (-(2 ^ 31)) (min (2 ^ 31 - 1) (truncQ x))

/-- `map_key` from src/input.rs: named-key table, then single-byte strings
as a Unicode code point, otherwise nothing. -/
def map_key (key : String) : Option EKey :=
  match key with
  | "Enter" => some .ret
  | "Escape" => some .escape
  | "Backspace" => some .backspace
  | "Tab" => some .tab
  | " " => some .space
  | "ArrowUp" => some .upArrow
  | "ArrowDown" => some .downArrow
  | "ArrowLeft" => some .leftArrow
  | "ArrowRight" => some .rightArrow
  | "Delete" => some .del
  | "Home" => some .home
  | "End" => some .keyEnd
  | "PageUp" => some .pageUp
  | "PageDown" => some .pageDown
  | "F1" => some .f1
  | "F2" => some .f2
  | "F3" => some .f3
  | "F4" => some .f4
  | "F5" => some .f5
  | "F6" => some .f6
  | "F7" => some .f7
  | "F8" => some .f8
  | "F9" => some .f9
  | "F10" => some .f10
  | "F11" => some .f11
  | "F12" => some .f12
  | "CapsLock" => some .capsLock
  | s => if s.utf8ByteSize = 1 then some (.unicode (s.get 0)) else none

/-- `InputController::handle_event` from src/input.rs, as the ordered list of
enigo calls one event produces. -/
def handle_event : ScreenEvent → List EnigoCall
  | .mouseMove x y => [.moveMouse x y]
  | .mouseDown b x y => [.moveMouse x y, .button (btnOf b) .press]
  | .mouseUp b x y => [.moveMouse x y, .button (btnOf b) .release]
  | .scroll _dx dy =>
      let amount := f64AsI32 (-dy / 10)
      if amount ≠ 0 then [.scroll amount] else []
  | .keyDown key _code m =>
      if key.utf8ByteSize = 1 ∧ m.ctrl = false ∧ m.alt = false ∧ m.meta = false then
        [.text key]
      else
        match map_key key with
        | some k =>
            (if m.meta then [.key .meta .press] else []) ++
            (if m.ctrl then [.key .control .press] else []) ++
            (if m.alt then [.key .alt .press] else []) ++
            (if m.shift then [.key .shift .press] else []) ++
            [.key k .click] ++
            (if m.shift then [.key .shift .release] else []) ++
            (if m.alt then [.key .alt .release] else []) ++
            (if m.ctrl then [.key .control .release] else []) ++
            (if m.meta then [.key .meta .release] else [])
        | none => []
  | .keyUp _key _code _m => []

/-! ## PORT parsing (src/main.rs, src/main_standalone.rs) -/

/-- Rust `u16::from_str`: an optional leading `+`, then at least one ASCII
digit, value at most 65535; anything else is an error. -/
def parseU16 (s : String) : Option Nat :=
  let digits :=
    match s.data with
    | '+' :: rest => rest
    | l => l
  if digits.isEmpty then none
  else if digits.all Char.isDigit then
    let v := digits.foldl (fun acc ch => acc * 10 + (ch.toNat - 48)) 0
    if v ≤ 65535 then some v else none
  else none

/-- The PORT resolution of both `main` functions:
`std::env::var("PORT").ok().and_then(|s| s.parse().ok()).unwrap_or(8123)`.
The argument is the value of the PORT environment variable, if set. -/
def resolvePort (env : Option String) : Nat :=
  (env.bind parseU16).getD 8123

/-! ## Standalone WebRTC signaling (src/streamer_standalone.rs,
src/server_standalone.rs) -/

/-- `SignalingMessage` from src/streamer_standalone.rs. -/
inductive SignalingMessage where
  | offer (sdp : String)
  | answer (sdp : String)
  | ice (candidate : String) (sdp_mid : Option String) (sdp_m_line_index : Option Nat)
  deriving DecidableEq, Repr

/-- The peer-connection state visible to signaling: the installed remote
description and the candidates the peer connection has accepted. -/
structure RtcPeerState where
  remoteDescription : Option String
  appliedCandidates : List String
  deriving DecidableEq, Repr

/-- Modelled from the spec: `RTCPeerConnection::add_ice_candidate` of the
webrtc-rs library (not part of this repository) rejects a candidate while no
remote description is set — the spec's §4.4 notes that candidates arriving
before the answer "failed to apply" — and otherwise applies it. -/
def addIceCandidate (st : RtcPeerState) (cand : String) : Except String RtcPeerState :=
  if st.remoteDescription.isSome then
    Except.ok { st with appliedCandidates := st.appliedCandidates ++ [cand] }
  else
    Except.error "remote description is not set"

/-- `RTCPeerConnection::set_remote_description`: install the answer. -/
def setRemoteDescription (st : RtcPeerState) (sdp : String) : RtcPeerState :=
  { st with remoteDescription := some sdp }

/-- `WebRtcStreamer::handle_signaling` from src/streamer_standalone.rs: an
answer is installed as the remote description (nothing else happens — in
particular no stored candidates are re-applied); an ice message is handed
straight to `add_ice_candidate`, whose error propagates; offers are ignored. -/
def handleSignaling (st : RtcPeerState) :
    SignalingMessage → Except String RtcPeerState
  | .answer sdp => Except.ok (setRemoteDescription st sdp)
  | .ice cand _ _ => addIceCandidate st cand
  | .offer _ => Except.ok st

/-- The WebSocket loop of src/server_standalone.rs: each signaling message is
dispatched to `handle_signaling`; an error is logged and the session
continues, leaving the state as it was. -/
def processSignaling (st : RtcPeerState) (msgs : List SignalingMessage) :
    RtcPeerState :=
  msgs.foldl
    (fun st msg =>
      match handleSignaling st msg with
      | .ok st' => st'
      | .error _ => st)
    st

/-- The peer connection at session start: no remote description, no
candidates. -/
def RtcPeerState.initial : RtcPeerState := ⟨none, []⟩

/-! ## Standalone encoder output and frame push (src/streamer_standalone.rs) -/

/-- A media `Sample` written to the video track: payload bytes and duration. -/
structure Sample where
  data : List Nat
  duration : Nat
  deriving DecidableEq, Repr

/-- `H264Encoder::encode` from src/streamer_standalone.rs, applied to the raw
Annex-B bitstream the openh264 library returned for the frame (the library
itself is external): an empty bitstream becomes `none`, anything else is
returned whole. -/
def encodeResult (bitstream : List Nat) : Option (List Nat) :=
  if bitstream.isEmpty then none else some bitstream

/-- `WebRtcStreamer::push_frame` from src/streamer_standalone.rs: encode the
frame and write one sample to the video track only when the encoder returned
data; the track is modelled as the list of samples written so far. -/
def pushFrameStandalone (track : List Sample) (frameDuration : Nat)
    (bitstream : List Nat) : List Sample :=
  match encodeResult bitstream with
  | some d => track ++ [⟨d, frameDuration⟩]
  | none => track

/-! ## GStreamer frame push (src/streamer/mod.rs) -/

/-- A GStreamer buffer pushed to the appsrc: payload and presentation
timestamp. -/
structure GstBuffer where
  data : List Nat
  pts : Nat
  deriving DecidableEq, Repr

/-- `WebRtcStreamer::push_frame` from src/streamer/mod.rs. The pipeline is
modelled as the list of buffers pushed so far; the function returns the new
pipeline and, on failure, the error message (the pipeline component of the
result is then unchanged). `width * height * 4` is `u32` arithmetic, hence
the `% 2 ^ 32`. -/
def gstPushFrame (width height : Nat) (pipeline : List GstBuffer)
    (rgba : List Nat) (pts : Nat) : List GstBuffer × Option String :=
  let expected := width * height * 4 % 2 ^ 32
  if rgba.length ≠ expected then
    (pipeline, some "Frame size mismatch")
  else
    (pipeline ++ [⟨rgba, pts⟩], none)

/-! ## RGBA → YUV 4:2:0 conversion (src/streamer_standalone.rs) -/

/-- Rust `i32::clamp(self, 0, 255)`. -/
def clamp255 (x : Int) : Int := max 0 (min 255 x)

/-- The luma formula of `from_rgba`: `((66r + 129g + 25b + 128) >> 8) + 16`
(`>>` on `i32` is arithmetic shift, i.e. floor division by 256; the operands
stay far inside the i32 range for byte inputs). -/
def yOf (r g b : Int) : Int := Int.fdiv (66 * r + 129 * g + 25 * b + 128) 256 + 16

/-- The chroma-U formula: `((-38r - 74g + 112b + 128) >> 8) + 128`. -/
def uOf (r g b : Int) : Int := Int.fdiv (-38 * r - 74 * g + 112 * b + 128) 256 + 128

/-- The chroma-V formula: `((112r - 94g - 18b + 128) >> 8) + 128`. -/
def vOf (r g b : Int) : Int := Int.fdiv (112 * r - 94 * g - 18 * b + 128) 256 + 128

/-- `rgba[(row * width + col) * 4]`: the red byte of the pixel at
(row, col). -/
def pxR (rgba : List Nat) (width row col : Nat) : Int :=
  rgba.getD ((row * width + col) * 4) 0

/-- The green byte of the pixel at (row, col). -/
def pxG (rgba : List Nat) (width row col : Nat) : Int :=
  rgba.getD ((row * width + col) * 4 + 1) 0

/-- The blue byte of the pixel at (row, col). -/
def pxB (rgba : List Nat) (width row col : Nat) : Int :=
  rgba.getD ((row * width + col) * 4 + 2) 0

/-- The byte stored into the Y plane at (row, col). -/
def yVal (rgba : List Nat) (width row col : Nat) : Nat :=
  (clamp255 (yOf (pxR rgba width row col) (pxG rgba width row col)
    (pxB rgba width row col))).toNat

/-- The byte stored into the U plane for the block whose top-left pixel is
(row, col). -/
def uVal (rgba : List Nat) (width row col : Nat) : Nat :=
  (clamp255 (uOf (pxR rgba width row col) (pxG rgba width row col)
    (pxB rgba width row col))).toNat

/-- The byte stored into the V plane for the block whose top-left pixel is
(row, col). -/
def vVal (rgba : List Nat) (width row col : Nat) : Nat :=
  (clamp255 (vOf (pxR rgba width row col) (pxG rgba width row col)
    (pxB rgba width row col))).toNat

/-- `Yuv420Buffer` from src/streamer_standalone.rs. -/
structure Yuv420Buffer where
  width : Nat
  height : Nat
  y : List Nat
  u : List Nat
  v : List Nat
  deriving DecidableEq, Repr

/-- `Yuv420Buffer::new`: Y plane of `width * height` zeros, U and V planes of
`width * height / 4` bytes of 128. -/
def Yuv420Buffer.new (width height : Nat) : Yuv420Buffer :=
  { width := width, height := height,
    y := List.replicate (width * height) 0,
    u := List.replicate (width * height / 4) 128,
    v := List.replicate (width * height / 4) 128 }

/-- The body of the nested loops of `Yuv420Buffer::from_rgba` for one
(row, col): write the clamped luma at `row * width + col`; when both row and
col are even, also write the clamped chroma pair at
`(row / 2) * (width / 2) + col / 2`. -/
def fromRgbaStep (rgba : List Nat) (width row col : Nat)
    (buf : Yuv420Buffer) : Yuv420Buffer :=
  let buf1 := { buf with y := buf.y.set (row * width + col) (yVal rgba width row col) }
  if col % 2 = 0 ∧ row % 2 = 0 then
    { buf1 with
      u := buf1.u.set (row / 2 * (width / 2) + col / 2) (uVal rgba width row col),
      v := buf1.v.set (row / 2 * (width / 2) + col / 2) (vVal rgba width row col) }
  else buf1

/-- `Yuv420Buffer::from_rgba`: start from `new` and run the row-major double
loop over all pixels. -/
def Yuv420Buffer.from_rgba (rgba : List Nat) (width height : Nat) : Yuv420Buffer :=
  (List.range height).foldl
    (fun buf row =>
      (List.range width).foldl (fun buf col => fromRgbaStep rgba width row col buf) buf)
    (Yuv420Buffer.new width height)

/-! ## Fold lemmas for the conversion loops -/

theorem foldl_proj {α β γ : Type _} (p : β → γ) (f : β → α → β) (g : γ → α → γ)
    (h : ∀ b a, p (f b a) = g (p b) a) :
    ∀ (l : List α) (b : β), p (l.foldl f b) = l.foldl g (p b) := by
  intro l
  induction l with
  | nil => intro b; rfl
  | cons a t ih => intro b; rw [List.foldl_cons, List.foldl_cons, ih, h]

theorem foldl_fun_congr {α β : Type _} (f g : β → α → β) (h : ∀ b a, f b a = g b a) :
    ∀ (l : List α) (b : β), l.foldl f b = l.foldl g b := by
  intro l
  induction l with
  | nil => intro b; rfl
  | cons a t ih => intro b; rw [List.foldl_cons, List.foldl_cons, h, ih]

theorem foldl_id {α β : Type _} (f : β → α → β) (h : ∀ b a, f b a = b) :
    ∀ (l : List α) (b : β), l.foldl f b = b := by
  intro l
  induction l with
  | nil => intro b; rfl
  | cons a t ih => intro b; rw [List.foldl_cons, h, ih]

theorem foldl_length_const {α : Type _} (f : List Nat → α → List Nat)
    (h : ∀ l a, (f l a).length = l.length) :
    ∀ (xs : List α) (l : List Nat), (xs.foldl f l).length = l.length := by
  intro xs
  induction xs with
  | nil => intro l; rfl
  | cons a t ih => intro l; rw [List.foldl_cons, ih, h]

/-- Writing `g c` at `base + c` for `c = 0, …, m-1` in order: the window
`[base, base + m)` (cut to the list) holds the written values, everything
else is untouched. -/
theorem foldl_set_window (g : Nat → Nat) (base : Nat) (ys : List Nat) :
    ∀ (m i : Nat),
    ((List.range m).foldl (fun l c => l.set (base + c) (g c)) ys)[i]?
      = if base ≤ i ∧ i < base + m ∧ i < ys.length then some (g (i - base))
        else ys[i]? := by
  intro m
  induction m with
  | zero =>
      intro i
      rw [List.range_zero, List.foldl_nil, if_neg (by omega)]
  | succ m ih =>
      intro i
      rw [List.range_succ, List.foldl_append, List.foldl_cons, List.foldl_nil,
        List.getElem?_set]
      have hlen : ((List.range m).foldl (fun l c => l.set (base + c) (g c)) ys).length
          = ys.length :=
        foldl_length_const _ (fun l c => List.length_set l (base + c) (g c)) _ _
      rw [hlen]
      by_cases he : base + m = i
      · rw [if_pos he]
        by_cases hl : i < ys.length
        · rw [if_pos (he ▸ hl), if_pos (by omega)]
          have : i - base = m := by omega
          rw [this]
        · rw [if_neg (fun h => hl (he ▸ h)), if_neg (by omega)]
          exact (List.getElem?_eq_none (by omega)).symm
      · rw [if_neg he, ih i]
        by_cases hc : base ≤ i ∧ i < base + m ∧ i < ys.length
        · rw [if_pos hc, if_pos (by omega)]
        · rw [if_neg hc, if_neg (by omega)]

/-- Conditionally writing `g c` at `base + c / 2` for even `c < m`, in order:
the window `[base, base + (m + 1) / 2)` holds the values of the even columns,
everything else is untouched. -/
theorem foldl_set_even_window (g : Nat → Nat) (base : Nat) (us : List Nat) :
    ∀ (m i : Nat),
    ((List.range m).foldl
        (fun l c => if c % 2 = 0 then l.set (base + c / 2) (g c) else l) us)[i]?
      = if base ≤ i ∧ i < base + (m + 1) / 2 ∧ i < us.length
        then some (g (2 * (i - base)))
        else us[i]? := by
  intro m
  induction m with
  | zero =>
      intro i
      rw [List.range_zero, List.foldl_nil, if_neg (by omega)]
  | succ m ih =>
      intro i
      rw [List.range_succ, List.foldl_append, List.foldl_cons, List.foldl_nil]
      have hlen : ((List.range m).foldl
          (fun l c => if c % 2 = 0 then l.set (base + c / 2) (g c) else l) us).length
          = us.length := by
        refine foldl_length_const _ (fun l c => ?_) _ _
        by_cases hc : c % 2 = 0 <;> simp [hc]
      by_cases hm : m % 2 = 0
      · rw [if_pos hm, List.getElem?_set, hlen]
        by_cases he : base + m / 2 = i
        · rw [if_pos he]
          by_cases hl : i < us.length
          · rw [if_pos (he ▸ hl), if_pos (by omega)]
            have : 2 * (i - base) = m := by omega
            rw [this]
          · rw [if_neg (fun h => hl (he ▸ h)), if_neg (by omega)]
            exact (List.getElem?_eq_none (by omega)).symm
        · rw [if_neg he, ih i]
          by_cases hc : base ≤ i ∧ i < base + (m + 1) / 2 ∧ i < us.length
          · rw [if_pos hc, if_pos (by omega)]
          · rw [if_neg hc, if_neg (by omega)]
      · rw [if_neg hm, ih i]
        by_cases hc : base ≤ i ∧ i < base + (m + 1) / 2 ∧ i < us.length
        · rw [if_pos hc, if_pos (by omega)]
        · rw [if_neg hc, if_neg (by omega)]

theorem fromRgbaStep_y (rgba : List Nat) (w row col : Nat) (buf : Yuv420Buffer) :
    (fromRgbaStep rgba w row col buf).y
      = buf.y.set (row * w + col) (yVal rgba w row col) := by
  unfold fromRgbaStep
  dsimp only
  split <;> rfl

theorem fromRgbaStep_u (rgba : List Nat) (w row col : Nat) (buf : Yuv420Buffer) :
    (fromRgbaStep rgba w row col buf).u
      = if col % 2 = 0 ∧ row % 2 = 0 then
          buf.u.set (row / 2 * (w / 2) + col / 2) (uVal rgba w row col)
        else buf.u := by
  unfold fromRgbaStep
  dsimp only
  split <;> rfl

theorem fromRgbaStep_v (rgba : List Nat) (w row col : Nat) (buf : Yuv420Buffer) :
    (fromRgbaStep rgba w row col buf).v
      = if col % 2 = 0 ∧ row % 2 = 0 then
          buf.v.set (row / 2 * (w / 2) + col / 2) (vVal rgba w row col)
        else buf.v := by
  unfold fromRgbaStep
  dsimp only
  split <;> rfl

/-- The luma double loop writes row-major: after `n` rows, index `i < n * w`
holds `g (i / w) (i % w)`. -/
theorem rows_set_window (g : Nat → Nat → Nat) (w : Nat) (ys : List Nat) :
    ∀ (n i : Nat),
    ((List.range n).foldl
        (fun l row => (List.range w).foldl
          (fun l col => l.set (row * w + col) (g row col)) l) ys)[i]?
      = if i < n * w ∧ i < ys.length then some (g (i / w) (i % w)) else ys[i]? := by
  intro n
  induction n with
  | zero =>
      intro i
      rw [List.range_zero, List.foldl_nil, if_neg (by omega)]
  | succ n ih =>
      intro i
      rw [List.range_succ, List.foldl_append, List.foldl_cons, List.foldl_nil]
      have hlen : ((List.range n).foldl
          (fun l row => (List.range w).foldl
            (fun l col => l.set (row * w + col) (g row col)) l) ys).length
          = ys.length := by
        refine foldl_length_const _ (fun l row => ?_) _ _
        exact foldl_length_const _ (fun l' col => List.length_set _ _ _) _ l
      rw [foldl_set_window (g n) (n * w) _ w i, hlen, ih i, Nat.succ_mul]
      by_cases hc : n * w ≤ i ∧ i < n * w + w ∧ i < ys.length
      · rw [if_pos hc, if_pos (by omega)]
        have hdiv : i / w = n :=
          Nat.div_eq_of_lt_le hc.1 (by rw [Nat.succ_mul]; exact hc.2.1)
        have hcm : w * n = n * w := Nat.mul_comm _ _
        have hmod : i % w = i - n * w := by
          have hmd := Nat.mod_add_div i w
          rw [hdiv] at hmd
          omega
        rw [hdiv, hmod]
      · rw [if_neg hc]
        by_cases hc2 : i < n * w ∧ i < ys.length
        · rw [if_pos hc2, if_pos (by omega)]
        · rw [if_neg hc2, if_neg (by omega)]

/-- The chroma writes: only even rows and even columns write, at
`(row / 2) * (w / 2) + col / 2`; after `n` rows, for even `w`, index
`j < ((n + 1) / 2) * (w / 2)` holds the value computed from the top-left
pixel `(2 * (j / (w/2)), 2 * (j % (w/2)))` of its 2×2 block. -/
theorem rows_uv_window (g : Nat → Nat → Nat) (w : Nat) (hw2 : w % 2 = 0)
    (us : List Nat) :
    ∀ (n i : Nat),
    ((List.range n).foldl
        (fun l row => (List.range w).foldl
          (fun l col => if col % 2 = 0 ∧ row % 2 = 0 then
              l.set (row / 2 * (w / 2) + col / 2) (g row col) else l) l) us)[i]?
      = if i < (n + 1) / 2 * (w / 2) ∧ i < us.length
        then some (g (2 * (i / (w / 2))) (2 * (i % (w / 2))))
        else us[i]? := by
  intro n
  induction n with
  | zero =>
      intro i
      rw [List.range_zero, List.foldl_nil, if_neg (by omega)]
  | succ n ih =>
      intro i
      rw [List.range_succ, List.foldl_append, List.foldl_cons, List.foldl_nil]
      by_cases hrow : n % 2 = 0
      · have hcong : ∀ l : List Nat,
            (List.range w).foldl
              (fun l col => if col % 2 = 0 ∧ n % 2 = 0 then
                  l.set (n / 2 * (w / 2) + col / 2) (g n col) else l) l
              = (List.range w).foldl
                  (fun l c => if c % 2 = 0 then
                      l.set (n / 2 * (w / 2) + c / 2) (g n c) else l) l := by
          intro l
          refine foldl_fun_congr _ _ (fun b a => ?_) _ l
          by_cases hc : a % 2 = 0 <;> simp [hc, hrow]
        have hlen : ((List.range n).foldl
            (fun l row => (List.range w).foldl
              (fun l col => if col % 2 = 0 ∧ row % 2 = 0 then
                  l.set (row / 2 * (w / 2) + col / 2) (g row col) else l) l) us).length
            = us.length := by
          refine foldl_length_const _ (fun l row => ?_) _ _
          refine foldl_length_const _ (fun l' col => ?_) _ l
          by_cases hc : col % 2 = 0 ∧ row % 2 = 0 <;> simp [hc]
        rw [hcong, foldl_set_even_window (g n) (n / 2 * (w / 2)) _ w i, hlen, ih i]
        have hwin : (w + 1) / 2 = w / 2 := by omega
        have e1 : (n + 1) / 2 = n / 2 := by omega
        have e2 : (n + 1 + 1) / 2 = n / 2 + 1 := by omega
        rw [hwin, e1, e2, Nat.succ_mul (n / 2) (w / 2)]
        by_cases hc : n / 2 * (w / 2) ≤ i ∧ i < n / 2 * (w / 2) + w / 2 ∧
            i < us.length
        · rw [if_pos hc, if_pos (by omega)]
          have hdiv : i / (w / 2) = n / 2 :=
            Nat.div_eq_of_lt_le hc.1 (by rw [Nat.succ_mul (n / 2) (w / 2)]; exact hc.2.1)
          have hcm : w / 2 * (n / 2) = n / 2 * (w / 2) := Nat.mul_comm _ _
          have hmod : i % (w / 2) = i - n / 2 * (w / 2) := by
            have hmd := Nat.mod_add_div i (w / 2)
            rw [hdiv] at hmd
            omega
          rw [hdiv, hmod]
          have hn : 2 * (n / 2) = n := by omega
          rw [hn]
        · rw [if_neg hc]
          by_cases hc2 : i < n / 2 * (w / 2) ∧ i < us.length
          · rw [if_pos hc2, if_pos (by omega)]
          · rw [if_neg hc2, if_neg (by omega)]
      · have hid : ∀ l : List Nat,
            (List.range w).foldl
              (fun l col => if col % 2 = 0 ∧ n % 2 = 0 then
                  l.set (n / 2 * (w / 2) + col / 2) (g n col) else l) l = l := by
          intro l
          exact foldl_id _ (fun b a => if_neg (fun hc => hrow hc.2)) _ l
        rw [hid, ih i]
        have e1 : (n + 1) / 2 = (n + 1 + 1) / 2 := by omega
        rw [e1]

/-- The Y plane of `from_rgba` as a fold of plain writes on the initial
zero plane. -/
theorem from_rgba_y_eq (rgba : List Nat) (w h : Nat) :
    (Yuv420Buffer.from_rgba rgba w h).y
      = (List.range h).foldl
          (fun l row => (List.range w).foldl
            (fun l col => l.set (row * w + col) (yVal rgba w row col)) l)
          (List.replicate (w * h) 0) := by
  unfold Yuv420Buffer.from_rgba
  exact foldl_proj Yuv420Buffer.y _ _
    (fun buf row => foldl_proj Yuv420Buffer.y _ _
      (fun b col => fromRgbaStep_y rgba w row col b) _ buf) _ _

/-- The U plane of `from_rgba` as a fold of conditional writes on the initial
128 plane. -/
theorem from_rgba_u_eq (rgba : List Nat) (w h : Nat) :
    (Yuv420Buffer.from_rgba rgba w h).u
      = (List.range h).foldl
          (fun l row => (List.range w).foldl
            (fun l col => if col % 2 = 0 ∧ row % 2 = 0 then
                l.set (row / 2 * (w / 2) + col / 2) (uVal rgba w row col) else l) l)
          (List.replicate (w * h / 4) 128) := by
  unfold Yuv420Buffer.from_rgba
  exact foldl_proj Yuv420Buffer.u _ _
    (fun buf row => foldl_proj Yuv420Buffer.u _ _
      (fun b col => fromRgbaStep_u rgba w row col b) _ buf) _ _

/-- The V plane of `from_rgba` as a fold of conditional writes on the initial
128 plane. -/
theorem from_rgba_v_eq (rgba : List Nat) (w h : Nat) :
    (Yuv420Buffer.from_rgba rgba w h).v
      = (List.range h).foldl
          (fun l row => (List.range w).foldl
            (fun l col => if col % 2 = 0 ∧ row % 2 = 0 then
                l.set (row / 2 * (w / 2) + col / 2) (vVal rgba w row col) else l) l)
          (List.replicate (w * h / 4) 128) := by
  unfold Yuv420Buffer.from_rgba
  exact foldl_proj Yuv420Buffer.v _ _
    (fun buf row => foldl_proj Yuv420Buffer.v _ _
      (fun b col => fromRgbaStep_v rgba w row col b) _ buf) _ _

/-- C1: for every RGBA input of `4 * w * h` bytes with `w` and `h` even, the
RGBA→YUV 4:2:0 conversion produces planes of sizes exactly `w * h`,
`w * h / 4` and `w * h / 4`; every stored result is a clamp to `[0, 255]`;
each luma sample is the clamped `((66R + 129G + 25B + 128) >> 8) + 16` of its
pixel; and each chroma sample is the clamped
`((-38R - 74G + 112B + 128) >> 8) + 128` resp.
`((112R - 94G - 18B + 128) >> 8) + 128` of the top-left pixel
`(2*r2, 2*c2)` of its 2×2 block. -/
theorem from_rgba_planes_spec (rgba : List Nat) (w h : Nat)
    (hw : w % 2 = 0) (hh : h % 2 = 0) (_hlen : rgba.length = 4 * w * h) :
    ((Yuv420Buffer.from_rgba rgba w h).y.length = w * h ∧
     (Yuv420Buffer.from_rgba rgba w h).u.length = w * h / 4 ∧
     (Yuv420Buffer.from_rgba rgba w h).v.length = w * h / 4) ∧
    (∀ z : Int, 0 ≤ clamp255 z ∧ clamp255 z ≤ 255) ∧
    (∀ row col, row < h → col < w →
      (Yuv420Buffer.from_rgba rgba w h).y[row * w + col]? =
        some (clamp255 (yOf (pxR rgba w row col) (pxG rgba w row col)
          (pxB rgba w row col))).toNat) ∧
    (∀ r2 c2, r2 < h / 2 → c2 < w / 2 →
      (Yuv420Buffer.from_rgba rgba w h).u[r2 * (w / 2) + c2]? =
        some (clamp255 (uOf (pxR rgba w (2 * r2) (2 * c2))
          (pxG rgba w (2 * r2) (2 * c2)) (pxB rgba w (2 * r2) (2 * c2)))).toNat) ∧
    (∀ r2 c2, r2 < h / 2 → c2 < w / 2 →
      (Yuv420Buffer.from_rgba rgba w h).v[r2 * (w / 2) + c2]? =
        some (clamp255 (vOf (pxR rgba w (2 * r2) (2 * c2))
          (pxG rgba w (2 * r2) (2 * c2)) (pxB rgba w (2 * r2) (2 * c2)))).toNat) := by
  have h4 : w * h / 4 = h / 2 * (w / 2) := by
    have ha : w = 2 * (w / 2) := by omega
    have hb : h = 2 * (h / 2) := by omega
    have hnum : 2 * (w / 2) * (2 * (h / 2)) = 4 * (h / 2 * (w / 2)) := by ring
    calc w * h / 4 = 2 * (w / 2) * (2 * (h / 2)) / 4 := by rw [← ha, ← hb]
      _ = 4 * (h / 2 * (w / 2)) / 4 := by rw [hnum]
      _ = h / 2 * (w / 2) := Nat.mul_div_cancel_left _ (by norm_num)
  have hylen : (Yuv420Buffer.from_rgba rgba w h).y.length = w * h := by
    rw [from_rgba_y_eq,
      foldl_length_const _
        (fun l row => foldl_length_const _
          (fun l' col => List.length_set _ _ _) _ l) _ _]
    exact List.length_replicate _ _
  have hulen : (Yuv420Buffer.from_rgba rgba w h).u.length = w * h / 4 := by
    rw [from_rgba_u_eq,
      foldl_length_const _
        (fun l row => foldl_length_const _
          (fun l' col => by
            by_cases hc : col % 2 = 0 ∧ row % 2 = 0 <;> simp [hc]) _ l) _ _]
    exact List.length_replicate _ _
  have hvlen : (Yuv420Buffer.from_rgba rgba w h).v.length = w * h / 4 := by
    rw [from_rgba_v_eq,
      foldl_length_const _
        (fun l row => foldl_length_const _
          (fun l' col => by
            by_cases hc : col % 2 = 0 ∧ row % 2 = 0 <;> simp [hc]) _ l) _ _]
    exact List.length_replicate _ _
  refine ⟨⟨hylen, hulen, hvlen⟩, ?_, ?_, ?_, ?_⟩
  · intro z
    exact ⟨le_max_left _ _, max_le (by norm_num) (min_le_left _ _)⟩
  · intro row col hr hc
    rw [from_rgba_y_eq, rows_set_window (yVal rgba w) w _ h (row * w + col),
      List.length_replicate]
    have h1 : row * w + col < (row + 1) * w := by rw [Nat.succ_mul row w]; omega
    have h2 : (row + 1) * w ≤ h * w := Nat.mul_le_mul_right w hr
    have hcm : h * w = w * h := Nat.mul_comm _ _
    rw [if_pos ⟨by omega, by omega⟩]
    have hdiv : (row * w + col) / w = row :=
      Nat.div_eq_of_lt_le (by omega) (by rw [Nat.succ_mul row w]; omega)
    have hmod : (row * w + col) % w = col := by
      rw [Nat.mul_comm row w, Nat.mul_add_mod]
      exact Nat.mod_eq_of_lt hc
    rw [hdiv, hmod]
    rfl
  · intro r2 c2 hr2 hc2
    rw [from_rgba_u_eq, rows_uv_window (uVal rgba w) w hw _ h (r2 * (w / 2) + c2),
      List.length_replicate]
    have e1 : (h + 1) / 2 = h / 2 := by omega
    rw [e1]
    have h1 : r2 * (w / 2) + c2 < (r2 + 1) * (w / 2) := by
      rw [Nat.succ_mul r2 (w / 2)]; omega
    have h2 : (r2 + 1) * (w / 2) ≤ h / 2 * (w / 2) := Nat.mul_le_mul_right _ hr2
    rw [if_pos ⟨by omega, by omega⟩]
    have hdiv : (r2 * (w / 2) + c2) / (w / 2) = r2 :=
      Nat.div_eq_of_lt_le (by omega) (by rw [Nat.succ_mul r2 (w / 2)]; omega)
    have hmod : (r2 * (w / 2) + c2) % (w / 2) = c2 := by
      rw [Nat.mul_comm r2 (w / 2), Nat.mul_add_mod]
      exact Nat.mod_eq_of_lt hc2
    rw [hdiv, hmod]
    rfl
  · intro r2 c2 hr2 hc2
    rw [from_rgba_v_eq, rows_uv_window (vVal rgba w) w hw _ h (r2 * (w / 2) + c2),
      List.length_replicate]
    have e1 : (h + 1) / 2 = h / 2 := by omega
    rw [e1]
    have h1 : r2 * (w / 2) + c2 < (r2 + 1) * (w / 2) := by
      rw [Nat.succ_mul r2 (w / 2)]; omega
    have h2 : (r2 + 1) * (w / 2) ≤ h / 2 * (w / 2) := Nat.mul_le_mul_right _ hr2
    rw [if_pos ⟨by omega, by omega⟩]
    have hdiv : (r2 * (w / 2) + c2) / (w / 2) = r2 :=
      Nat.div_eq_of_lt_le (by omega) (by rw [Nat.succ_mul r2 (w / 2)]; omega)
    have hmod : (r2 * (w / 2) + c2) % (w / 2) = c2 := by
      rw [Nat.mul_comm r2 (w / 2), Nat.mul_add_mod]
      exact Nat.mod_eq_of_lt hc2
    rw [hdiv, hmod]
    rfl

/-- A concrete 2×2 RGBA test image (red, green, blue, white pixels). -/
def rgbaSample : List Nat :=
  [255, 0, 0, 255, 0, 255, 0, 255, 0, 0, 255, 255, 255, 255, 255, 255]

theorem from_rgba_planes_spec_witness :
    (2 % 2 = 0 ∧ rgbaSample.length = 4 * 2 * 2) ∧
    ((Yuv420Buffer.from_rgba rgbaSample 2 2).y.length = 2 * 2 ∧
     (Yuv420Buffer.from_rgba rgbaSample 2 2).u.length = 2 * 2 / 4 ∧
     (Yuv420Buffer.from_rgba rgbaSample 2 2).v.length = 2 * 2 / 4) ∧
    (Yuv420Buffer.from_rgba rgbaSample 2 2).y[1 * 2 + 1]? =
      some (clamp255 (yOf (pxR rgbaSample 2 1 1) (pxG rgbaSample 2 1 1)
        (pxB rgbaSample 2 1 1))).toNat ∧
    (Yuv420Buffer.from_rgba rgbaSample 2 2).u[0 * (2 / 2) + 0]? =
      some (clamp255 (uOf (pxR rgbaSample 2 (2 * 0) (2 * 0))
        (pxG rgbaSample 2 (2 * 0) (2 * 0)) (pxB rgbaSample 2 (2 * 0) (2 * 0)))).toNat ∧
    (Yuv420Buffer.from_rgba rgbaSample 2 2).v[0 * (2 / 2) + 0]? =
      some (clamp255 (vOf (pxR rgbaSample 2 (2 * 0) (2 * 0))
        (pxG rgbaSample 2 (2 * 0) (2 * 0)) (pxB rgbaSample 2 (2 * 0) (2 * 0)))).toNat := by
  have H := from_rgba_planes_spec rgbaSample 2 2 (by decide) (by decide) (by decide)
  exact ⟨⟨by decide, by decide⟩, H.1,
    H.2.2.1 1 1 (by decide) (by decide),
    H.2.2.2.1 0 0 (by decide) (by decide),
    H.2.2.2.2 0 0 (by decide) (by decide)⟩

/-! ## Theorems for the input dispatcher, signaling, encoder and config claims -/

/-- C4 counterexample: for a scroll event with `dy = 6`, `round(-dy/10) = -1`
is nonzero, so the claim requires a scroll of one notch — but the dispatcher
casts `-0.6` to `i32` (truncation toward zero, giving 0) and discards the
event, emitting nothing. -/
theorem scroll_round_cex :
    handle_event (.scroll 0 6) = [] ∧ round (-(6 : ℚ) / 10) = -1 := by
  constructor
  · norm_num [handle_event, f64AsI32, truncQ, Int.ceil_neg]
  · norm_num [round_eq]

/-- C4 amended: for every scroll event, the dispatcher scrolls by `-dy/10`
truncated toward zero (the `f64 as i32` cast; within the i32 range the amount
is exactly the truncation), and whenever the truncated amount is zero — in
particular for every `dy` with `|dy| < 10` — no scroll is emitted and the
event is discarded. -/
theorem scroll_truncates (dx dy : ℚ) :
    (-(2 ^ 31) ≤ truncQ (-dy / 10) →
      truncQ (-dy / 10) ≤ 2 ^ 31 - 1 →
      handle_event (.scroll dx dy) =
        if truncQ (-dy / 10) = 0 then [] else [.scroll (truncQ (-dy / 10))]) ∧
    (|dy| < 10 → handle_event (.scroll dx dy) = []) := by
  constructor
  · intro h1 h2
    have hcast : f64AsI32 (-dy / 10) = truncQ (-dy / 10) := by
      unfold f64AsI32
      rw [min_eq_right h2, max_eq_right h1]
    simp only [handle_event, hcast]
    by_cases h : truncQ (-dy / 10) = 0 <;> simp [h]
  · intro h
    have habs : |(-dy) / 10| < 1 := by
      rw [abs_div, abs_neg]
      have h10 : |(10 : ℚ)| = 10 := by norm_num
      rw [h10, div_lt_one (by norm_num : (0:ℚ) < 10)]
      exact h
    have h0 : truncQ (-dy / 10) = 0 := by
      unfold truncQ
      rcases abs_lt.mp habs with ⟨hlo, hhi⟩
      split
      · next hx => exact Int.floor_eq_zero_iff.mpr (Set.mem_Ico.mpr ⟨hx, hhi⟩)
      · next hx =>
          exact Int.ceil_eq_zero_iff.mpr (Set.mem_Ioc.mpr ⟨hlo, le_of_not_le hx⟩)
    norm_num [handle_event, f64AsI32, h0]

theorem scroll_truncates_witness :
    (-(2 ^ 31) ≤ truncQ (-(42 : ℚ) / 10) ∧ truncQ (-(42 : ℚ) / 10) ≤ 2 ^ 31 - 1 ∧
      handle_event (.scroll 0 42) = [.scroll (-4)]) ∧
    (|(9 : ℚ)| < 10 ∧ handle_event (.scroll 1 9) = []) := by
  have h4 : truncQ (-(42 : ℚ) / 10) = -4 := by norm_num [truncQ, Int.ceil_neg]
  have h1 : -(2 ^ 31) ≤ truncQ (-(42 : ℚ) / 10) := by rw [h4]; norm_num
  have h2 : truncQ (-(42 : ℚ) / 10) ≤ 2 ^ 31 - 1 := by rw [h4]; norm_num
  have h9 : |(9 : ℚ)| < 10 := by norm_num
  refine ⟨⟨h1, h2, ?_⟩, h9, (scroll_truncates 1 9).2 h9⟩
  rw [(scroll_truncates 0 42).1 h1 h2, h4]
  norm_num

/-- C5: a key_down whose key is a single printable ASCII character with all
modifiers unset injects exactly that character as text, once, with no
modifier presses and no separate key click; the matching key_up performs no
injection. -/
theorem printable_key_injects_text (key code : String) (m : Modifiers) (c : Char)
    (hkey : key = String.singleton c) (_hc1 : 0x20 ≤ c.toNat) (hc2 : c.toNat ≤ 0x7e)
    (hm : m = ⟨false, false, false, false⟩) :
    handle_event (.keyDown key code m) = [.text key] ∧
    handle_event (.keyUp key code m) = [] := by
  subst hkey
  subst hm
  have hchar : c.utf8Size = 1 := by
    have hle : c.val ≤ 0x7F := by
      change c.val.toNat ≤ 0x7e at hc2
      change c.val.toNat ≤ 127
      omega
    simp [Char.utf8Size, hle]
  have hsize : (String.singleton c).utf8ByteSize = 1 := by
    show String.utf8ByteSize ⟨[c]⟩ = 1
    simp [String.utf8ByteSize, String.utf8ByteSize.go, hchar]
  exact ⟨by simp [handle_event, hsize], rfl⟩

theorem printable_key_injects_text_witness :
    handle_event (.keyDown "a" "KeyA" ⟨false, false, false, false⟩) = [.text "a"] ∧
    handle_event (.keyUp "a" "KeyA" ⟨false, false, false, false⟩) = [] :=
  printable_key_injects_text "a" "KeyA" _ 'a' rfl (by decide) (by decide) rfl

/-- C6 counterexample: the PORT value "abc" does not parse as a u16, yet
startup does not fail — the port silently falls back to the default 8123,
exactly as if PORT were unset. -/
theorem invalid_port_defaults_cex :
    parseU16 "abc" = none ∧ resolvePort (some "abc") = 8123 ∧
    resolvePort (some "abc") = resolvePort none :=
  ⟨by decide, by decide, by decide⟩

/-- C6 amended: if the PORT environment variable is set to a value that does
not parse as a valid u16 port, it is silently replaced by the default port
8123 and the server starts on that port (startup does not fail). -/
theorem invalid_port_falls_back (s : String) (h : parseU16 s = none) :
    resolvePort (some s) = 8123 := by
  simp [resolvePort, h]

theorem invalid_port_falls_back_witness :
    parseU16 "99999" = none ∧ resolvePort (some "99999") = 8123 :=
  ⟨by decide, invalid_port_falls_back "99999" (by decide)⟩

/-- C3 counterexample: an ice candidate received before the answer, followed
by the answer. After the remote description is installed the candidate has
not been applied (and nothing holds it for later): it was handed straight to
`add_ice_candidate`, which failed, and the error was only logged. -/
theorem ice_before_answer_dropped_cex :
    processSignaling .initial
        [.ice "candidate:1 1 UDP 2122252543 192.0.2.1 54400 typ host" none none,
         .answer "v=0 answer-sdp"] =
      { remoteDescription := some "v=0 answer-sdp", appliedCandidates := [] } := rfl

/-- C3 amended: an ice candidate received before the remote description is
set is passed immediately to `add_ice_candidate`, which fails; the error is
logged and the candidate is dropped (the session state is unchanged — nothing
is buffered for later). A candidate received after the remote description is
set is applied immediately. -/
theorem ice_candidate_immediate_apply (st : RtcPeerState) (cand : String)
    (mid : Option String) (mline : Option Nat) :
    (st.remoteDescription = none →
      handleSignaling st (.ice cand mid mline) =
        Except.error "remote description is not set" ∧
      processSignaling st [.ice cand mid mline] = st) ∧
    (∀ sdp, st.remoteDescription = some sdp →
      handleSignaling st (.ice cand mid mline) =
        Except.ok { st with appliedCandidates := st.appliedCandidates ++ [cand] }) := by
  constructor
  · intro h
    constructor
    · simp [handleSignaling, addIceCandidate, h]
    · simp [processSignaling, handleSignaling, addIceCandidate, h]
  · intro sdp h
    simp [handleSignaling, addIceCandidate, h]

theorem ice_candidate_immediate_apply_witness :
    (RtcPeerState.initial.remoteDescription = none ∧
      processSignaling RtcPeerState.initial [.ice "candidate:9" none none] =
        RtcPeerState.initial) ∧
    ((⟨some "answer-sdp", []⟩ : RtcPeerState).remoteDescription = some "answer-sdp" ∧
      handleSignaling ⟨some "answer-sdp", []⟩ (.ice "candidate:9" none none) =
        Except.ok ⟨some "answer-sdp", ["candidate:9"]⟩) :=
  ⟨⟨rfl, ((ice_candidate_immediate_apply RtcPeerState.initial
      "candidate:9" none none).1 rfl).2⟩,
   ⟨rfl, (ice_candidate_immediate_apply ⟨some "answer-sdp", []⟩
      "candidate:9" none none).2 "answer-sdp" rfl⟩⟩

/-- C7: each encoder call returns at most one encoded unit, and an empty
encoder output is dropped: no sample is written to the video track for a
frame whose encoding produced an empty bitstream, and every sample that is
written has a non-empty payload. -/
theorem empty_encoder_output_dropped (track : List Sample) (dur : Nat)
    (bs : List Nat) :
    (pushFrameStandalone track dur bs).length ≤ track.length + 1 ∧
    pushFrameStandalone track dur [] = track ∧
    (bs ≠ [] → pushFrameStandalone track dur bs = track ++ [⟨bs, dur⟩]) ∧
    (∀ s ∈ pushFrameStandalone track dur bs, s ∈ track ∨ s.data ≠ []) := by
  refine ⟨?_, rfl, ?_, ?_⟩
  · by_cases h : bs = [] <;> simp [pushFrameStandalone, encodeResult, h]
  · intro h
    simp [pushFrameStandalone, encodeResult, h]
  · intro s hs
    by_cases h : bs = []
    · subst h
      exact Or.inl hs
    · simp only [pushFrameStandalone, encodeResult, List.isEmpty_eq_true,
        if_neg h] at hs
      rcases List.mem_append.mp hs with hmem | hmem
      · exact Or.inl hmem
      · right
        have : s = ⟨bs, dur⟩ := by simpa using hmem
        simp [this, h]

theorem empty_encoder_output_dropped_witness :
    pushFrameStandalone [] 33 [] = [] ∧
    ([7, 8] ≠ ([] : List Nat) ∧
      pushFrameStandalone [] 33 [7, 8] = [⟨[7, 8], 33⟩]) :=
  ⟨(empty_encoder_output_dropped [] 33 []).2.1,
   ⟨by decide, (empty_encoder_output_dropped [] 33 [7, 8]).2.2.1 (by decide)⟩⟩

/-- C9: the GStreamer `push_frame` accepts only byte slices of length exactly
`4 * width * height`: any other length returns an error and pushes nothing
(the pipeline is unchanged); the exact length pushes the whole slice with the
given presentation timestamp. (The hypothesis keeps the `u32` product
`width * height * 4` from wrapping, as it is for any representable frame.) -/
theorem gst_push_frame_size_check (width height : Nat) (pipeline : List GstBuffer)
    (rgba : List Nat) (pts : Nat) (hsz : width * height * 4 < 2 ^ 32) :
    (rgba.length ≠ width * height * 4 →
      gstPushFrame width height pipeline rgba pts =
        (pipeline, some "Frame size mismatch")) ∧
    (rgba.length = width * height * 4 →
      gstPushFrame width height pipeline rgba pts =
        (pipeline ++ [⟨rgba, pts⟩], none)) := by
  have hmod : width * height * 4 % 4294967296 = width * height * 4 :=
    Nat.mod_eq_of_lt hsz
  constructor <;> intro h <;> simp [gstPushFrame, hmod, h]

theorem gst_push_frame_size_check_witness :
    (2 * 1 * 4 < 2 ^ 32 ∧
      gstPushFrame 2 1 [] (List.replicate 8 0) 0 =
        ([⟨List.replicate 8 0, 0⟩], none)) ∧
    gstPushFrame 2 1 [] [0, 0, 0] 7 = ([], some "Frame size mismatch") :=
  ⟨⟨by decide,
    (gst_push_frame_size_check 2 1 [] (List.replicate 8 0) 0 (by decide)).2
      (by decide)⟩,
   (gst_push_frame_size_check 2 1 [] [0, 0, 0] 7 (by decide)).1 (by decide)⟩

end Streamio
